import Mathlib

/-!
# Windows certificate-store signer (`windows_signer.cpp`)

A shallow embedding of `google/auth/transport/cpp/windows_signer.cpp`.

* Bytes are `Fin 256`; buffer lengths (`DWORD`, `size_t`, `int`) are natural
  numbers, and the theorems that depend on the `DWORD` range of `cbSignature`
  carry it as a hypothesis.
* The object `WinCertStoreKey` is a record of its handle fields; a `NULL`
  handle or pointer is `none`.
* Every call into the operating system or into OpenSSL is recorded in an event
  trace, and its outcome (success, failure, returned bytes) is read from an
  `OsEnv` record, one per `Sign` call. OpenSSL's `BN_bin2bn` and
  `i2d_ECDSA_SIG` are modelled as the big-endian read and the DER encoding of
  `ECDSA-Sig-Value`.
* A write or read through a null pointer ends the run with `Outcome.crashed`.
* Diagnostic output (`printf`, `std::cout`, `LogInfo`) is not modelled.
-/

namespace WindowsSigner

/-! ## Bytes and OpenSSL big numbers -/

/-- An `unsigned char`. -/
abbrev Byte := Fin 256

/-- The byte with value `n mod 256`. -/
def byte (n : Nat) : Byte := ⟨n % 256, Nat.mod_lt n (by decide)⟩

/-- Modelled from the spec: `BN_bin2bn` is an OpenSSL function, not under src/.
It reads `s` as a big-endian unsigned integer ("interpret each half as a
big-endian unsigned integer"). The result is the value held by the `BIGNUM`. -/
def BN_bin2bn (s : List Byte) : Nat :=
  s.foldl (fun acc b => acc * 256 + b.val) 0

/-- Big-endian bytes of `n`, most significant first, with `fuel` bounding the
number of bytes produced. -/
def bn2binAux : Nat → Nat → List Byte
  | 0, _ => []
  | fuel + 1, n => if n = 0 then [] else bn2binAux fuel (n / 256) ++ [byte n]

/-- Modelled from the spec: `BN_bn2bin` is an OpenSSL function, not under src/.
It gives the minimal big-endian magnitude of `n` (no leading zero byte; the
empty string for zero). -/
def BN_bn2bin (n : Nat) : List Byte := bn2binAux n n

/-- Modelled from the spec: the fixed-width big-endian form of `n`
(`BN_bn2binpad`), used to re-form the raw `r‖s` signature: the minimal
magnitude left-padded with zero bytes to `width` bytes. -/
def BN_bn2binpad (n width : Nat) : List Byte :=
  List.replicate (width - (BN_bn2bin n).length) (0 : Byte) ++ BN_bn2bin n

/-! ## DER encoding of `ECDSA-Sig-Value` -/

/-- Modelled from the spec: the content octets of a DER INTEGER holding the
non-negative number `n` ("each integer encoded with a leading zero byte if its
high bit is set, per standard big-integer encoding rules"); zero is the single
byte `0x00`. -/
def derIntegerContent (n : Nat) : List Byte :=
  match BN_bn2bin n with
  | [] => [0]
  | b :: bs => if 128 ≤ b.val then 0 :: b :: bs else b :: bs

/-- Modelled from the spec: DER definite length octets: short form below 128,
otherwise `0x80 + k` followed by the `k` minimal big-endian bytes of the
length. -/
def derLength (n : Nat) : List Byte :=
  if n < 128 then [byte n] else byte (128 + (BN_bn2bin n).length) :: BN_bn2bin n

/-- Modelled from the spec: a DER INTEGER (tag `0x02`). -/
def derInteger (n : Nat) : List Byte :=
  byte 2 :: (derLength (derIntegerContent n).length ++ derIntegerContent n)

/-- Modelled from the spec: `i2d_ECDSA_SIG` is an OpenSSL function, not under
src/. The bytes it writes for `(r, s)`: a DER SEQUENCE (tag `0x30`) of the two
INTEGERs `r` and `s` ("a sequence containing two big integers"). -/
def ecdsaSigDer (r s : Nat) : List Byte :=
  byte 48 :: (derLength (derInteger r ++ derInteger s).length ++ (derInteger r ++ derInteger s))

/-! ## A strict DER reader, used to state the round trip -/

/-- Reads DER definite length octets; rejects the indefinite form, a long form
with a leading zero byte, and a long form used for a length below 128. -/
def parseLength : List Byte → Option (Nat × List Byte)
  | [] => none
  | b :: rest =>
    if b.val < 128 then some (b.val, rest)
    else
      let k := b.val - 128
      if k = 0 ∨ rest.length < k then none
      else if (rest.take k).head? = some 0 then none
      else if BN_bin2bn (rest.take k) < 128 then none
      else some (BN_bin2bn (rest.take k), rest.drop k)

/-- The value of two's-complement big-endian content octets. -/
def integerValue (content : List Byte) : Int :=
  match content with
  | [] => 0
  | b :: _ =>
    if 128 ≤ b.val then (BN_bin2bn content : Int) - (256 : Int) ^ content.length
    else (BN_bin2bn content : Int)

/-- Content octets are minimal: not empty, and the first nine bits are neither
all zero nor all one. -/
def minimalInteger : List Byte → Bool
  | [] => false
  | [_] => true
  | b :: c :: _ => !(b.val = 0 && c.val < 128) && !(b.val = 255 && 128 ≤ c.val)

/-- Reads one DER INTEGER and returns its value and the remaining input. -/
def parseInteger : List Byte → Option (Int × List Byte)
  | [] => none
  | t :: rest =>
    if t.val ≠ 2 then none
    else
      match parseLength rest with
      | none => none
      | some (len, body) =>
        if body.length < len then none
        else if minimalInteger (body.take len) then
          some (integerValue (body.take len), body.drop len)
        else none

/-- Reads a DER SEQUENCE that holds exactly two INTEGERs and nothing else, with
no trailing bytes after the SEQUENCE. -/
def parseEcdsaSig : List Byte → Option (Int × Int)
  | [] => none
  | t :: rest =>
    if t.val ≠ 48 then none
    else
      match parseLength rest with
      | none => none
      | some (len, body) =>
        if body.length ≠ len then none
        else
          match parseInteger body with
          | none => none
          | some (r, rest1) =>
            match parseInteger rest1 with
            | none => none
            | some (s, rest2) => if rest2 = [] then some (r, s) else none

/-! ## The object, the operating system and the event trace -/

/-- An OS handle or heap pointer; each successful acquisition yields a new one. -/
abbrev Handle := Nat

/-- The padding record passed to the sign primitive for RSA keys. -/
structure BCRYPT_PSS_PADDING_INFO where
  pszAlgId : String
  cbSalt : Nat
deriving DecidableEq, Repr

/-- The algorithm identifier `BCRYPT_SHA256_ALGORITHM` of `bcrypt.h`. -/
def BCRYPT_SHA256_ALGORITHM : String := "SHA256"

/-- The flag `BCRYPT_PAD_PSS` of `bcrypt.h`. -/
def BCRYPT_PAD_PSS : Nat := 8

/-- One call into the operating system or into OpenSSL, with the arguments and
results the claims are about. A `result` of `none` is a failed acquisition. -/
inductive Event
  | CertOpenStore (result : Option Handle)
  | CertFindCertificateInStore (hCertStore : Option Handle) (result : Option Handle)
  | CertFreeCertificateContext (h : Handle)
  | CertCloseStore (h : Handle)
  | CryptAcquireCertificatePrivateKey (pSignerCert : Option Handle) (result : Option Handle)
  | BCryptOpenAlgorithmProvider (result : Option Handle)
  | BCryptGetProperty (ok : Bool)
  | BCryptCloseAlgorithmProvider (h : Handle)
  | BCryptCreateHash (result : Option Handle)
  | BCryptHashData (cbToSign : Nat) (ok : Bool)
  | BCryptFinishHash (ok : Bool)
  | BCryptDestroyHash (h : Handle)
  | HeapAlloc (size : Nat) (result : Option Handle)
  | HeapFree (p : Option Handle)
  | NCryptSignHash (hKey : Option Handle) (padding : Option BCRYPT_PSS_PADDING_INFO)
      (flag : Nat) (output : Option Handle) (ok : Bool)
  | BN_bin2bn (result : Option Handle)
  | BN_bn2hex (result : Option Handle)
  | i2d_ECDSA_SIG (out : Option Handle) (allocated : Option Handle) (len : Int)
deriving DecidableEq, Repr

/-- The resource an event acquires, if any. -/
def Event.acquired : Event → Option Handle
  | .CertOpenStore r => r
  | .CertFindCertificateInStore _ r => r
  | .CryptAcquireCertificatePrivateKey _ r => r
  | .BCryptOpenAlgorithmProvider r => r
  | .BCryptCreateHash r => r
  | .HeapAlloc _ r => r
  | .BN_bin2bn r => r
  | .BN_bn2hex r => r
  | .i2d_ECDSA_SIG _ a _ => a
  | _ => none

/-- The resource an event releases, if any. -/
def Event.released : Event → Option Handle
  | .CertFreeCertificateContext h => some h
  | .CertCloseStore h => some h
  | .BCryptCloseAlgorithmProvider h => some h
  | .BCryptDestroyHash h => some h
  | .HeapFree p => p
  | _ => none

/-- How many times the trace acquires `h`. -/
def acquireCount (h : Handle) (trace : List Event) : Nat :=
  (trace.filter (fun e => e.acquired = some h)).length

/-- How many times the trace releases `h`. -/
def releaseCount (h : Handle) (trace : List Event) : Nat :=
  (trace.filter (fun e => e.released = some h)).length

/-- The fields of `WinCertStoreKey` that the member functions of
`windows_signer.cpp` read or write. -/
structure WinCertStoreKey where
  is_rsa_type : Bool
  cert_store_name : String
  cert_subject : String
  hCertStore : Option Handle
  pSignerCert : Option Handle
  hCryptProv : Option Handle
  dwKeySpec : Nat
  hAlg : Option Handle
  hHash : Option Handle
  pbHashObject : Option Handle
  pbHash : Option Handle
  cbHash : Nat
deriving DecidableEq, Repr

/-- The object together with the supply of new handles. -/
structure Machine where
  key : WinCertStoreKey
  nextHandle : Handle
deriving DecidableEq, Repr

/-- The outcomes of the OS and OpenSSL calls made during one `Sign` call. A
`Bool` says whether the call succeeds; an `Option` also carries what a
successful call reports. -/
structure OsEnv where
  certStoreOpens : Bool
  certFound : Bool
  keyAcquired : Bool
  keySpec : Nat
  algOpens : Bool
  objectLength : Option Nat
  hashObjectAlloc : Bool
  hashLength : Option Nat
  hashAlloc : Bool
  hashCreated : Bool
  hashDataOk : Bool
  hashFinishOk : Bool
  sigSizeQuery : Option Nat
  rawSigAlloc : Bool
  sigFill : Option (List Byte)
  sigStructAlloc : Bool
  bnROk : Bool
  bnSOk : Bool
  hexOk : Bool
  i2dSizeOk : Bool
  encodedAlloc : Bool
  i2dFillOk : Bool
deriving DecidableEq, Repr

/-- An acquisition: a new handle when `ok`, `NULL` otherwise. -/
def Machine.alloc (m : Machine) (ok : Bool) : Option Handle × Machine :=
  if ok then (some m.nextHandle, { m with nextHandle := m.nextHandle + 1 }) else (none, m)

/-- The release event for a field that is not `NULL`. -/
def releaseIf (h : Option Handle) (f : Handle → Event) : List Event :=
  match h with
  | some x => [f x]
  | none => []

/-- Source `WinCertStoreKey::Cleanup` (lines 34-42): releases every field that is not
`NULL`; no field is changed. -/
def Cleanup (k : WinCertStoreKey) : List Event :=
  releaseIf k.pSignerCert Event.CertFreeCertificateContext
    ++ releaseIf k.hCertStore Event.CertCloseStore
    ++ releaseIf k.hAlg Event.BCryptCloseAlgorithmProvider
    ++ releaseIf k.hHash Event.BCryptDestroyHash
    ++ releaseIf k.pbHashObject (fun p => Event.HeapFree (some p))
    ++ releaseIf k.pbHash (fun p => Event.HeapFree (some p))

/-- Source `WinCertStoreKey::HandleError` (lines 48-53): prints, then `Cleanup()`. -/
def HandleError (k : WinCertStoreKey) : List Event := Cleanup k

/-- Source `WinCertStoreKey::GetSignerCert` (lines 55-90). A failed
`CertOpenStore` or `CertFindCertificateInStore` stores `NULL` in the field,
calls `HandleError` and returns. -/
def GetSignerCert (env : OsEnv) (m : Machine) : Machine × List Event :=
  let (store, m1) := m.alloc env.certStoreOpens
  let m2 : Machine := { m1 with key := { m1.key with hCertStore := store } }
  match store with
  | none => (m2, Event.CertOpenStore none :: HandleError m2.key)
  | some _ =>
    let (cert, m3) := m2.alloc env.certFound
    let m4 : Machine := { m3 with key := { m3.key with pSignerCert := cert } }
    match cert with
    | some _ =>
      (m4, [Event.CertOpenStore store, Event.CertFindCertificateInStore store cert])
    | none =>
      (m4, [Event.CertOpenStore store, Event.CertFindCertificateInStore store none]
            ++ HandleError m4.key)

/-- Source `WinCertStoreKey::GetPrivateKey` (lines 92-107). On failure the out
parameters `hCryptProv` and `dwKeySpec` keep their values. -/
def GetPrivateKey (env : OsEnv) (m : Machine) : Machine × List Event :=
  if env.keyAcquired then
    let m1 : Machine :=
      { key := { m.key with hCryptProv := some m.nextHandle, dwKeySpec := env.keySpec },
        nextHandle := m.nextHandle + 1 }
    (m1, [Event.CryptAcquireCertificatePrivateKey m.key.pSignerCert (some m.nextHandle)])
  else
    (m, Event.CryptAcquireCertificatePrivateKey m.key.pSignerCert none :: HandleError m.key)

/-- Source `WinCertStoreKey::CreateHash` (lines 109-177). Every failure jumps to the
label `Cleanup`, which only returns. -/
def CreateHash (env : OsEnv) (tbs : List Byte) (m : Machine) : Machine × List Event :=
  if env.algOpens = false then (m, [Event.BCryptOpenAlgorithmProvider none])
  else
    let m1 : Machine :=
      { key := { m.key with hAlg := some m.nextHandle }, nextHandle := m.nextHandle + 1 }
    let t1 := [Event.BCryptOpenAlgorithmProvider (some m.nextHandle)]
    match env.objectLength with
    | none => (m1, t1 ++ [Event.BCryptGetProperty false])
    | some cbHashObject =>
      let (obj, m2) := m1.alloc env.hashObjectAlloc
      let m3 : Machine := { m2 with key := { m2.key with pbHashObject := obj } }
      let t3 := t1 ++ [Event.BCryptGetProperty true, Event.HeapAlloc cbHashObject obj]
      match obj with
      | none => (m3, t3)
      | some _ =>
        match env.hashLength with
        | none => (m3, t3 ++ [Event.BCryptGetProperty false])
        | some cb =>
          let m4 : Machine := { m3 with key := { m3.key with cbHash := cb } }
          let (buf, m5) := m4.alloc env.hashAlloc
          let m6 : Machine := { m5 with key := { m5.key with pbHash := buf } }
          let t6 := t3 ++ [Event.BCryptGetProperty true, Event.HeapAlloc cb buf]
          match buf with
          | none => (m6, t6)
          | some _ =>
            if env.hashCreated = false then (m6, t6 ++ [Event.BCryptCreateHash none])
            else
              let m7 : Machine :=
                { key := { m6.key with hHash := some m6.nextHandle },
                  nextHandle := m6.nextHandle + 1 }
              let t7 := t6 ++ [Event.BCryptCreateHash (some m6.nextHandle)]
              if env.hashDataOk = false then
                (m7, t7 ++ [Event.BCryptHashData tbs.length false])
              else
                (m7, t7 ++ [Event.BCryptHashData tbs.length true,
                            Event.BCryptFinishHash env.hashFinishOk])

/-- The caller's output arguments of `NCryptSign`: the memory at
`pbSignatureOut` (indexed from the pointer) and the value of
`*cbSignatureOut`; `none` is a null pointer. -/
structure OutArgs where
  pbSignatureOut : Option (Nat → Byte)
  cbSignatureOut : Option Nat

/-- The copy loop of lines 270-272: `pbSignatureOut[i] = pbSignature[i]` for
`i` from `0` to `cbSignature - 1`. -/
def copyBytes (pbSignature : List Byte) (cbSignature : Nat) (pbSignatureOut : Nat → Byte) :
    Nat → Byte :=
  (List.range cbSignature).foldl
    (fun out i => Function.update out i (pbSignature.getD i 0)) pbSignatureOut

/-- The padding argument and flag chosen at lines 181-190. -/
def paddingSelection (is_rsa_type : Bool) : Option BCRYPT_PSS_PADDING_INFO × Nat :=
  let pss_padding_info : BCRYPT_PSS_PADDING_INFO :=
    { pszAlgId := BCRYPT_SHA256_ALGORITHM, cbSalt := 32 }
  if is_rsa_type then (some pss_padding_info, BCRYPT_PAD_PSS) else (none, 0)

/-- Modelled from the spec: the return value of `i2d_ECDSA_SIG` (OpenSSL, not
under src/): the length of the encoding, or a negative value on failure. -/
def i2dLength (ok : Bool) (r s : Nat) : Int :=
  if ok then ((ecdsaSigDer r s).length : Int) else -1

/-- How the conversion block of `NCryptSign` ends. -/
inductive EcResult
  | converted (m : Machine) (pbSignature : Option (List Byte)) (cbSignature : Nat)
      (trace : List Event)
  | aborted (m : Machine) (trace : List Event)
  | nullDeref (m : Machine) (trace : List Event)

/-- The conversion block of `NCryptSign` for a non-RSA key (lines 222-267);
`raw` is the content of `pbSignature` and `raw.length` is `cbSignature`.
The first statement that uses `sig` is the store `sig->r = BN_bin2bn(...)`,
made before the test `!sig`. `sizeof(ECDSA_SIG_st)` is two pointers. When
`i2d_ECDSA_SIG` is given a null `*pp` it allocates the output itself and
stores the address in `pbSig`; `pbSignatureNew` stays null. -/
def convertEcdsa (env : OsEnv) (m : Machine) (raw : List Byte) : EcResult :=
  let order_len := raw.length / 2
  let (sig, m1) := m.alloc env.sigStructAlloc
  let t1 := [Event.HeapAlloc 16 sig]
  match sig with
  | none =>
    EcResult.nullDeref (m1.alloc env.bnROk).2 (t1 ++ [Event.BN_bin2bn (m1.alloc env.bnROk).1])
  | some _ =>
    let r := BN_bin2bn (raw.take order_len)
    let (pr, m2) := m1.alloc env.bnROk
    let s := BN_bin2bn ((raw.drop order_len).take order_len)
    let (ps, m3) := m2.alloc env.bnSOk
    let t3 := t1 ++ [Event.BN_bin2bn pr, Event.BN_bin2bn ps]
    if pr.isNone ∨ ps.isNone then EcResult.aborted m3 t3
    else
      let (hex, m4) := m3.alloc env.hexOk
      let len := i2dLength env.i2dSizeOk r s
      let t4 := t3 ++ [Event.BN_bn2hex hex, Event.i2d_ECDSA_SIG none none len]
      if len ≤ 0 then EcResult.aborted m4 t4
      else
        let (pbSignatureNew, m5) := m4.alloc env.encodedAlloc
        let len2 := i2dLength env.i2dFillOk r s
        let (own, m6) := m5.alloc (env.i2dFillOk && pbSignatureNew.isNone)
        let t6 := t4 ++ [Event.HeapAlloc len.toNat pbSignatureNew,
                          Event.i2d_ECDSA_SIG pbSignatureNew own len2]
        if len2 ≤ 0 then EcResult.aborted m6 (t6 ++ [Event.HeapFree pbSignatureNew])
        else
          EcResult.converted m6 (pbSignatureNew.map (fun _ => ecdsaSigDer r s)) len2.toNat t6

/-- How `NCryptSign` and `Sign` end: a normal return, or a crash on an access
through a null pointer. -/
inductive Outcome (α : Type)
  | returned (m : Machine) (value : α) (trace : List Event)
  | crashed (m : Machine) (trace : List Event)

/-- The copy to the caller at lines 268-274. A null `pbSignature` is read as
soon as the loop body runs once. -/
def copyOut (m : Machine) (pbSignature : Option (List Byte)) (cbSignature : Nat)
    (out : OutArgs) (trace : List Event) : Outcome OutArgs :=
  match out.pbSignatureOut, out.cbSignatureOut with
  | some buf, some _ =>
    match pbSignature with
    | some src =>
      Outcome.returned m
        { pbSignatureOut := some (copyBytes src cbSignature buf),
          cbSignatureOut := some cbSignature } trace
    | none =>
      if cbSignature = 0 then
        Outcome.returned m { pbSignatureOut := some buf, cbSignatureOut := some 0 } trace
      else Outcome.crashed m trace
  | _, _ => Outcome.returned m out trace

/-- Source `WinCertStoreKey::NCryptSign` (lines 179-279): the padding choice,
the size query, the allocation of the raw buffer, the fill, the conversion for
a non-RSA key, and the copy to the caller. Every `goto Cleanup` returns. -/
def NCryptSign (env : OsEnv) (m : Machine) (out : OutArgs) : Outcome OutArgs :=
  let padding_info := (paddingSelection m.key.is_rsa_type).1
  let dwFlag := (paddingSelection m.key.is_rsa_type).2
  let hKey := m.key.hCryptProv
  match env.sigSizeQuery with
  | none =>
    Outcome.returned m out [Event.NCryptSignHash hKey padding_info dwFlag none false]
  | some cbSignature =>
    let (pbSignature, m1) := m.alloc env.rawSigAlloc
    let t1 := [Event.NCryptSignHash hKey padding_info dwFlag none true,
               Event.HeapAlloc cbSignature pbSignature]
    match pbSignature with
    | none => Outcome.returned m1 out t1
    | some p =>
      match env.sigFill with
      | none =>
        Outcome.returned m1 out
          (t1 ++ [Event.NCryptSignHash hKey padding_info dwFlag (some p) false])
      | some raw =>
        let t2 := t1 ++ [Event.NCryptSignHash hKey padding_info dwFlag (some p) true]
        if m.key.is_rsa_type = false then
          match convertEcdsa env m1 raw with
          | EcResult.nullDeref m2 t => Outcome.crashed m2 (t2 ++ t)
          | EcResult.aborted m2 t => Outcome.returned m2 out (t2 ++ t)
          | EcResult.converted m2 pbSignatureNew len t =>
            copyOut m2 pbSignatureNew len out (t2 ++ t)
        else copyOut m1 (some raw) raw.length out t2

/-- What `Sign` leaves with its caller. -/
structure SignResult where
  sig : Option (Nat → Byte)
  sig_len : Nat
  ret : Bool

/-- Source `WinCertStoreKey::Sign` (lines 281-289), also the exported `Sign` (lines
314-316). `len` is the indeterminate initial value of the local `DWORD len`. -/
def Sign (env : OsEnv) (m : Machine) (sig : Option (Nat → Byte)) (tbs : List Byte)
    (len : Nat) : Outcome SignResult :=
  let (m1, t1) := GetSignerCert env m
  let (m2, t2) := GetPrivateKey env m1
  let (m3, t3) := CreateHash env tbs m2
  match NCryptSign env m3 { pbSignatureOut := sig, cbSignatureOut := some len } with
  | Outcome.crashed m4 t4 => Outcome.crashed m4 (t1 ++ t2 ++ t3 ++ t4)
  | Outcome.returned m4 out t4 =>
    Outcome.returned m4
      { sig := out.pbSignatureOut, sig_len := out.cbSignatureOut.getD len, ret := true }
      (t1 ++ t2 ++ t3 ++ t4)

/-- Modelled from the spec: the constructor of `WinCertStoreKey` is declared in
`windows_signer.h`, not under src/. `CreateCustomKey` (lines 293-306) returns a
new object that holds no OS resource yet ("never fails at this layer ...
errors surface lazily on first sign"). -/
def CreateCustomKey (is_rsa_type : Bool) (store_name subject : String) : Machine :=
  { key :=
      { is_rsa_type := is_rsa_type, cert_store_name := store_name, cert_subject := subject,
        hCertStore := none, pSignerCert := none, hCryptProv := none, dwKeySpec := 0,
        hAlg := none, hHash := none, pbHashObject := none, pbHash := none, cbHash := 0 },
    nextHandle := 0 }

/-- Source `DestroyCustomKey` (lines 308-312): `delete key` runs the destructor
(lines 44-46), which calls `Cleanup()`. -/
def DestroyCustomKey (m : Machine) : List Event := Cleanup m.key

/-- The trace of an outcome. -/
def Outcome.trace {α : Type} : Outcome α → List Event
  | .returned _ _ t => t
  | .crashed _ t => t

/-- The object after the call. -/
def Outcome.machine {α : Type} : Outcome α → Machine
  | .returned m _ _ => m
  | .crashed m _ => m

/-- The returned value, `none` after a crash. -/
def Outcome.value {α : Type} : Outcome α → Option α
  | .returned _ v _ => some v
  | .crashed _ _ => none

/-- The first `n` bytes of a buffer. -/
def bufferPrefix (buf : Nat → Byte) (n : Nat) : List Byte := (List.range n).map buf

/-! ## Definitions used to state the claims, and fixtures -/

/-- Every step of the conversion block succeeds: the three allocations, both
`BN_bin2bn` calls and both `i2d_ECDSA_SIG` calls. -/
def conversionSucceeds (env : OsEnv) : Bool :=
  env.sigStructAlloc && env.bnROk && env.bnSOk && env.i2dSizeOk && env.encodedAlloc
    && env.i2dFillOk

/-- The INTEGER content the standard rule prescribes for a fixed-width half:
the half without its leading zero bytes, the single byte `0x00` when nothing is
left, and one `0x00` in front when the top bit of the first remaining byte is
set. -/
def standardIntegerContent (half : List Byte) : List Byte :=
  match half.dropWhile (fun b => decide (b = 0)) with
  | [] => [0]
  | b :: bs => if 128 ≤ b.val then 0 :: b :: bs else b :: bs

/-- A fixture: an outcome record in which every OS and OpenSSL call succeeds
and the sign primitive returns `raw`. -/
def allSucceed (raw : List Byte) : OsEnv :=
  { certStoreOpens := true, certFound := true, keyAcquired := true, keySpec := 0xFFFFFFFF,
    algOpens := true, objectLength := some 326, hashObjectAlloc := true,
    hashLength := some 32, hashAlloc := true, hashCreated := true, hashDataOk := true,
    hashFinishOk := true, sigSizeQuery := some raw.length, rawSigAlloc := true,
    sigFill := some raw, sigStructAlloc := true, bnROk := true, bnSOk := true, hexOk := true,
    i2dSizeOk := true, encodedAlloc := true, i2dFillOk := true }

/-- A fixture: a caller buffer filled with `0xAA`. -/
def blankBuffer : Nat → Byte := fun _ => 170

/-- A fixture: a 64-byte raw signature whose halves are `80 00 .. 00 01` and
`00 .. 00 7F`. -/
def rawP256 : List Byte :=
  (128 :: List.replicate 30 0 ++ [1]) ++ (List.replicate 31 0 ++ [127])

/-- The trace of a conversion block. -/
def EcResult.trace : EcResult → List Event
  | .converted _ _ _ t => t
  | .aborted _ t => t
  | .nullDeref _ t => t

/-- The padding argument and the flag of a call of the sign primitive. -/
def Event.signArgs : Event → Option (Option BCRYPT_PSS_PADDING_INFO × Nat)
  | .NCryptSignHash _ padding flag _ _ => some (padding, flag)
  | _ => none

/-- The padding arguments and flags of the calls of the sign primitive in a
trace, in order. -/
def signHashArgs (trace : List Event) : List (Option BCRYPT_PSS_PADDING_INFO × Nat) :=
  trace.filterMap Event.signArgs

/-- The final signature of `NCryptSign`: the raw buffer for an RSA key, and
the structured encoding of the two halves for any other key. -/
def finalSignature (is_rsa_type : Bool) (raw : List Byte) : List Byte :=
  if is_rsa_type then raw
  else ecdsaSigDer (BN_bin2bn (raw.take (raw.length / 2)))
    (BN_bin2bn ((raw.drop (raw.length / 2)).take (raw.length / 2)))

/-- One of the failure exits that `NCryptSign` tests for is taken: the size
query fails, the raw buffer is not allocated, the fill fails, or, for a non-RSA
key whose `sig` holder was allocated, `BN_bin2bn` yields a null `r` or `s` or
one of the two `i2d_ECDSA_SIG` calls returns a length that is not positive. -/
def detectedFailure (is_rsa_type : Bool) (env : OsEnv) : Bool :=
  env.sigSizeQuery.isNone || !env.rawSigAlloc || env.sigFill.isNone
    || (!is_rsa_type && env.sigStructAlloc
        && (!env.bnROk || !env.bnSOk || !env.i2dSizeOk || !env.i2dFillOk))

/-- Every step of `NCryptSign` succeeds. -/
def everyStepSucceeds (is_rsa_type : Bool) (env : OsEnv) : Bool :=
  env.sigSizeQuery.isSome && env.rawSigAlloc && env.sigFill.isSome
    && (is_rsa_type || conversionSucceeds env)

/-- A null pointer is accessed after both sign calls succeeded for a non-RSA
key: the store `sig->r = ...` of line 227 goes through a `sig` holder that was
not allocated, or every other step succeeds while the buffer for the encoding
was not allocated, and the copy loop of line 271 (entered when both output
pointers are not null) reads through the null `pbSignatureNew`. -/
def nullPointerAccess (env : OsEnv) (outNonNull : Bool) : Bool :=
  !env.sigStructAlloc
    || (env.bnROk && env.bnSOk && env.i2dSizeOk && env.i2dFillOk && !env.encodedAlloc
        && outNonNull)

/-- Whether `NCryptSign` accesses a null pointer: the key is not RSA, both sign
calls succeed, and `nullPointerAccess` holds (at line 227 or at line 271). -/
def signCrashes (is_rsa_type : Bool) (env : OsEnv) (outNonNull : Bool) : Bool :=
  !is_rsa_type && env.sigSizeQuery.isSome && env.rawSigAlloc && env.sigFill.isSome
    && nullPointerAccess env outNonNull

/-- The handles a trace releases, in order; a handle released twice occurs
twice. -/
def releasedHandles (trace : List Event) : List Handle :=
  trace.filterMap Event.released

/-- The object holds no handle: every handle field is `NULL`, as in a new
object. -/
def holdsNoHandle (k : WinCertStoreKey) : Bool :=
  k.hCertStore.isNone && k.pSignerCert.isNone && k.hCryptProv.isNone && k.hAlg.isNone
    && k.hHash.isNone && k.pbHashObject.isNone && k.pbHash.isNone

/-- A fixture: the certificate store cannot be opened; there is then no
certificate and no key, the digest is computed, and the sign primitive fails. -/
def storeUnavailable : OsEnv :=
  { allSucceed [] with
    certStoreOpens := false, certFound := false, keyAcquired := false, sigSizeQuery := none,
    sigFill := none }

/-- A fixture: the store opens but no certificate matches the subject; there is
then no key, the digest is computed, and the sign primitive fails. -/
def certificateMissing : OsEnv :=
  { allSucceed [] with
    certFound := false, keyAcquired := false, sigSizeQuery := none, sigFill := none }

/-- The whole life of an object used for one `Sign` call: the trace of the call
followed by the trace of `DestroyCustomKey`. -/
def sessionTrace (env : OsEnv) (m : Machine) (sig : Option (Nat → Byte)) (tbs : List Byte)
    (len : Nat) : List Event :=
  (Sign env m sig tbs len).trace ++ DestroyCustomKey (Sign env m sig tbs len).machine

/-! ## Big-endian numbers: helper lemmas -/

theorem byte_val (n : Nat) : (byte n).val = n % 256 := rfl

theorem bn2binAux_zero (fuel : Nat) : bn2binAux fuel 0 = [] := by
  cases fuel <;> simp [bn2binAux]

theorem bn2binAux_fuel (f1 : Nat) : ∀ (f2 n : Nat), n ≤ f1 → n ≤ f2 →
    bn2binAux f1 n = bn2binAux f2 n := by
  induction f1 with
  | zero =>
    intro f2 n h1 _
    have : n = 0 := by omega
    subst this
    simp [bn2binAux_zero]
  | succ f1 ih =>
    intro f2 n h1 h2
    cases f2 with
    | zero =>
      have : n = 0 := by omega
      subst this
      simp [bn2binAux_zero]
    | succ f2 =>
      by_cases hn : n = 0
      · simp [bn2binAux, hn]
      · have hd : n / 256 < n := Nat.div_lt_self (Nat.pos_of_ne_zero hn) (by decide)
        simp only [bn2binAux, hn, if_false]
        rw [ih f2 (n / 256) (by omega) (by omega)]

theorem BN_bn2bin_zero : BN_bn2bin 0 = [] := rfl

theorem BN_bn2bin_step (n : Nat) (hn : n ≠ 0) :
    BN_bn2bin n = BN_bn2bin (n / 256) ++ [byte n] := by
  have hd : n / 256 < n := Nat.div_lt_self (Nat.pos_of_ne_zero hn) (by decide)
  obtain ⟨k, rfl⟩ : ∃ k, n = k + 1 := ⟨n - 1, by omega⟩
  unfold BN_bn2bin
  simp only [bn2binAux, hn, if_false]
  rw [bn2binAux_fuel k ((k + 1) / 256) ((k + 1) / 256) (by omega) (le_refl _)]

theorem BN_bn2bin_push (v : Nat) (b : Byte) (h : v * 256 + b.val ≠ 0) :
    BN_bn2bin (v * 256 + b.val) = BN_bn2bin v ++ [b] := by
  rw [BN_bn2bin_step _ h]
  have hb := b.isLt
  have h1 : (v * 256 + b.val) / 256 = v := by omega
  have h2 : byte (v * 256 + b.val) = b := by
    apply Fin.ext
    simp only [byte_val]
    omega
  rw [h1, h2]

theorem BN_bin2bn_append_one (xs : List Byte) (b : Byte) :
    BN_bin2bn (xs ++ [b]) = BN_bin2bn xs * 256 + b.val := by
  simp [BN_bin2bn, List.foldl_append]

theorem BN_bin2bn_eq_zero (xs : List Byte) (h : BN_bin2bn xs = 0) :
    xs.dropWhile (fun b => decide (b = 0)) = [] := by
  induction xs using List.reverseRecOn with
  | nil => rfl
  | append_singleton xs b ih =>
    rw [BN_bin2bn_append_one] at h
    have h1 : BN_bin2bn xs = 0 := by omega
    have h2 : b = 0 := Fin.ext (by simp; omega)
    have h3 := ih h1
    rw [List.dropWhile_eq_nil_iff] at h3 ⊢
    intro x hx
    rcases List.mem_append.mp hx with hx | hx
    · exact h3 x hx
    · simp at hx
      simp [hx, h2]

theorem dropWhile_append_of_ne_nil {α : Type} (p : α → Bool) (xs ys : List α)
    (h : xs.dropWhile p ≠ []) : (xs ++ ys).dropWhile p = xs.dropWhile p ++ ys := by
  induction xs with
  | nil => simp at h
  | cons a xs ih =>
    by_cases hp : p a = true
    · simp only [List.cons_append, List.dropWhile_cons, hp, if_true] at h ⊢
      exact ih h
    · simp [List.dropWhile_cons, hp]

theorem dropWhile_append_of_eq_nil {α : Type} (p : α → Bool) (xs ys : List α)
    (h : xs.dropWhile p = []) : (xs ++ ys).dropWhile p = ys.dropWhile p := by
  induction xs with
  | nil => rfl
  | cons a xs ih =>
    by_cases hp : p a = true
    · simp only [List.cons_append, List.dropWhile_cons, hp, if_true] at h ⊢
      exact ih h
    · simp [List.dropWhile_cons, hp] at h

/-- The minimal magnitude of the number read from `xs` is `xs` without its
leading zero bytes. -/
theorem BN_bn2bin_bin2bn (xs : List Byte) :
    BN_bn2bin (BN_bin2bn xs) = xs.dropWhile (fun b => decide (b = 0)) := by
  induction xs using List.reverseRecOn with
  | nil => rfl
  | append_singleton xs b ih =>
    rw [BN_bin2bn_append_one]
    by_cases h : BN_bin2bn xs * 256 + b.val = 0
    · rw [h, BN_bn2bin_zero]
      have := BN_bin2bn_eq_zero (xs ++ [b]) (by rw [BN_bin2bn_append_one]; exact h)
      exact this.symm
    · rw [BN_bn2bin_push _ _ h, ih]
      by_cases hx : xs.dropWhile (fun b => decide (b = 0)) = []
      · rw [dropWhile_append_of_eq_nil _ _ _ hx, hx]
        have hv : BN_bin2bn xs = 0 := by
          have := ih
          rw [hx] at this
          by_contra hne
          rw [BN_bn2bin_step _ hne] at this
          simp at this
        have hb : b ≠ 0 := by
          intro hb
          apply h
          simp [hv, hb]
        simp [List.dropWhile_cons, hb]
      · rw [dropWhile_append_of_ne_nil _ _ _ hx]

theorem BN_bin2bn_bn2bin (n : Nat) : BN_bin2bn (BN_bn2bin n) = n := by
  induction n using Nat.strong_induction_on with
  | _ n ih =>
    by_cases hn : n = 0
    · subst hn; rfl
    · have hd : n / 256 < n := Nat.div_lt_self (Nat.pos_of_ne_zero hn) (by decide)
      rw [BN_bn2bin_step n hn, BN_bin2bn_append_one, ih _ hd, byte_val]
      omega

theorem BN_bn2bin_length_le (xs : List Byte) :
    (BN_bn2bin (BN_bin2bn xs)).length ≤ xs.length := by
  rw [BN_bn2bin_bin2bn]
  exact (List.dropWhile_sublist _).length_le

theorem BN_bn2bin_length_of_lt (n k : Nat) (h : n < 256 ^ k) : (BN_bn2bin n).length ≤ k := by
  induction k generalizing n with
  | zero =>
    have : n = 0 := by simpa using h
    subst this
    simp [BN_bn2bin_zero]
  | succ k ih =>
    by_cases hn : n = 0
    · subst hn; simp [BN_bn2bin_zero]
    · rw [BN_bn2bin_step n hn]
      have : n / 256 < 256 ^ k := by
        rw [pow_succ] at h
        exact Nat.div_lt_of_lt_mul (by rw [Nat.mul_comm]; exact h)
      have := ih _ this
      simp
      omega

theorem BN_bn2bin_head_ne_zero (n : Nat) : (BN_bn2bin n).head? ≠ some 0 := by
  have h := BN_bn2bin_bin2bn (BN_bn2bin n)
  rw [BN_bin2bn_bn2bin] at h
  intro hh
  cases hb : BN_bn2bin n with
  | nil => rw [hb] at hh; simp at hh
  | cons b bs =>
    rw [hb] at hh h
    simp at hh
    subst hh
    simp [List.dropWhile_cons] at h
    have := (List.dropWhile_sublist (fun b : Byte => decide (b = 0)) (l := bs)).length_le
    rw [← h] at this
    simp at this

/-- Writing the number read from `xs` back at the width of `xs` gives `xs`. -/
theorem BN_bn2binpad_bin2bn (xs : List Byte) :
    BN_bn2binpad (BN_bin2bn xs) xs.length = xs := by
  unfold BN_bn2binpad
  rw [BN_bn2bin_bin2bn]
  induction xs with
  | nil => rfl
  | cons a xs ih =>
    by_cases ha : a = 0
    · subst ha
      have hle := (List.dropWhile_sublist (fun b : Byte => decide (b = 0)) (l := xs)).length_le
      simp only [List.dropWhile_cons, decide_True, if_true, List.length_cons]
      rw [show xs.length + 1 - (List.dropWhile (fun b : Byte => decide (b = 0)) xs).length
        = (xs.length - (List.dropWhile (fun b : Byte => decide (b = 0)) xs).length) + 1 by omega]
      rw [List.replicate_succ, List.cons_append, ih]
    · simp [List.dropWhile_cons, ha]

/-! ## DER: helper lemmas -/

theorem BN_bin2bn_cons_zero (xs : List Byte) : BN_bin2bn ((0 : Byte) :: xs) = BN_bin2bn xs := by
  simp [BN_bin2bn]

theorem BN_bn2bin_length_of_lt_two_pow (n : Nat) (h : n < 2 ^ 64) :
    (BN_bn2bin n).length < 128 := by
  have := BN_bn2bin_length_of_lt n 8 (by norm_num at h ⊢; exact h)
  omega

theorem parseLength_derLength (n : Nat) (rest : List Byte) (h : (BN_bn2bin n).length < 128) :
    parseLength (derLength n ++ rest) = some (n, rest) := by
  unfold derLength
  by_cases hn : n < 128
  · have : n % 256 = n := Nat.mod_eq_of_lt (by omega)
    simp [hn, parseLength, byte_val, this]
  · have hk : (128 + (BN_bn2bin n).length) % 256 = 128 + (BN_bn2bin n).length :=
      Nat.mod_eq_of_lt (by omega)
    have hne : BN_bn2bin n ≠ [] := by
      intro h0
      have := BN_bin2bn_bn2bin n
      rw [h0] at this
      simp [BN_bin2bn] at this
      omega
    have hlen : 0 < (BN_bn2bin n).length := List.length_pos.mpr hne
    have hhead := BN_bn2bin_head_ne_zero n
    simp only [hn, if_false, List.cons_append, parseLength, byte_val, hk]
    have h1 : ¬ (128 + (BN_bn2bin n).length < 128) := by omega
    have h2 : 128 + (BN_bn2bin n).length - 128 = (BN_bn2bin n).length := by omega
    simp only [h1, if_false, h2]
    have h3 : ¬ ((BN_bn2bin n).length = 0 ∨
        (BN_bn2bin n ++ rest).length < (BN_bn2bin n).length) := by
      rw [List.length_append]
      omega
    simp only [h3, if_false, List.take_left, List.drop_left, BN_bin2bn_bn2bin, hhead, hn]

theorem derIntegerContent_value (n : Nat) :
    integerValue (derIntegerContent n) = (n : Int) := by
  have hv := BN_bin2bn_bn2bin n
  unfold derIntegerContent
  cases hb : BN_bn2bin n with
  | nil =>
    rw [hb] at hv
    simp [BN_bin2bn] at hv
    subst hv
    simp [integerValue, BN_bin2bn]
  | cons b bs =>
    rw [hb] at hv
    by_cases h : 128 ≤ b.val
    · simp only [h, if_true, integerValue]
      simp [BN_bin2bn_cons_zero, hv]
    · simp only [h, if_false, integerValue]
      simp [hv]

theorem derIntegerContent_minimal (n : Nat) : minimalInteger (derIntegerContent n) = true := by
  have hh := BN_bn2bin_head_ne_zero n
  unfold derIntegerContent
  cases hb : BN_bn2bin n with
  | nil => rfl
  | cons b bs =>
    rw [hb] at hh
    by_cases h : 128 ≤ b.val
    · simp only [h, if_true, minimalInteger]
      have : ¬ (b.val < 128) := by omega
      simp [this]
    · simp only [h, if_false]
      cases bs with
      | nil => rfl
      | cons c cs =>
        have h0 : b ≠ 0 := by
          intro h0
          apply hh
          simp [h0]
        have h0v : b.val ≠ 0 := fun hv => h0 (Fin.ext hv)
        have h255 : b.val ≠ 255 := by omega
        simp [minimalInteger, h0v, h255]

theorem parseInteger_derInteger (n : Nat) (rest : List Byte)
    (h : (BN_bn2bin (derIntegerContent n).length).length < 128) :
    parseInteger (derInteger n ++ rest) = some ((n : Int), rest) := by
  unfold derInteger
  simp only [List.cons_append, parseInteger, byte_val, List.append_assoc]
  rw [parseLength_derLength _ _ h]
  simp [derIntegerContent_minimal, derIntegerContent_value]

/-- The strict reader accepts the encoding of `(r, s)` and returns `(r, s)`. -/
theorem parseEcdsaSig_ecdsaSigDer (r s : Nat)
    (hr : (BN_bn2bin (derIntegerContent r).length).length < 128)
    (hs : (BN_bn2bin (derIntegerContent s).length).length < 128)
    (hseq : (BN_bn2bin (derInteger r ++ derInteger s).length).length < 128) :
    parseEcdsaSig (ecdsaSigDer r s) = some ((r : Int), (s : Int)) := by
  unfold ecdsaSigDer
  simp only [parseEcdsaSig, byte_val]
  rw [parseLength_derLength _ _ hseq]
  have hs2 := parseInteger_derInteger s [] hs
  rw [List.append_nil] at hs2
  simp [parseInteger_derInteger r _ hr, hs2]

theorem derIntegerContent_length_le (xs : List Byte) :
    (derIntegerContent (BN_bin2bn xs)).length ≤ xs.length + 1 := by
  have h := BN_bn2bin_length_le xs
  unfold derIntegerContent
  cases hb : BN_bn2bin (BN_bin2bn xs) with
  | nil => simp
  | cons b bs =>
    rw [hb] at h
    simp only [List.length_cons] at h
    by_cases h128 : 128 ≤ b.val <;> simp [h128] <;> omega

theorem derIntegerContent_length_pos (n : Nat) : 1 ≤ (derIntegerContent n).length := by
  unfold derIntegerContent
  cases hb : BN_bn2bin n with
  | nil => simp
  | cons b bs => by_cases h128 : 128 ≤ b.val <;> simp [h128]

theorem derLength_length_le (n : Nat) (h : n < 2 ^ 64) : (derLength n).length ≤ 9 := by
  have := BN_bn2bin_length_of_lt n 8 (by norm_num at h ⊢; exact h)
  unfold derLength
  split <;> simp
  omega

theorem derLength_short (n : Nat) (h : n < 128) : derLength n = [byte n] := by
  simp [derLength, h]

theorem derInteger_length (n : Nat) :
    (derInteger n).length =
      1 + (derLength (derIntegerContent n).length).length + (derIntegerContent n).length := by
  simp [derInteger]
  omega

theorem ecdsaSigDer_length (r s : Nat) :
    (ecdsaSigDer r s).length =
      1 + (derLength (derInteger r ++ derInteger s).length).length
        + ((derInteger r).length + (derInteger s).length) := by
  simp [ecdsaSigDer]
  omega

/-! ## `NCryptSign`: helper lemmas -/

theorem copyBytes_apply (src : List Byte) (cb : Nat) (buf : Nat → Byte) (i : Nat) :
    copyBytes src cb buf i = if i < cb then src.getD i 0 else buf i := by
  induction cb with
  | zero => simp [copyBytes]
  | succ cb ih =>
    unfold copyBytes at ih ⊢
    rw [List.range_succ, List.foldl_append]
    simp only [List.foldl_cons, List.foldl_nil]
    by_cases h : i = cb
    · subst h
      simp
    · rw [Function.update_noteq h, ih]
      by_cases h2 : i < cb
      · have : i < cb + 1 := by omega
        simp [h2, this]
      · have : ¬ i < cb + 1 := by omega
        simp [h2, this]

theorem bufferPrefix_copyBytes (src : List Byte) (buf : Nat → Byte) :
    bufferPrefix (copyBytes src src.length buf) src.length = src := by
  apply List.ext_getElem
  · simp [bufferPrefix]
  · intro i h1 h2
    simp [bufferPrefix, copyBytes_apply, h2]

theorem bufferPrefix_length (buf : Nat → Byte) (n : Nat) : (bufferPrefix buf n).length = n := by
  simp [bufferPrefix]

/-- The result of `NCryptSign` for a non-RSA key when both sign calls and the
whole conversion succeed: the encoding of the two halves is copied out. -/
theorem NCryptSign_ec_returns (env : OsEnv) (m : Machine) (buf : Nat → Byte) (len0 sz : Nat)
    (raw : List Byte) (hk : m.key.is_rsa_type = false) (hq : env.sigSizeQuery = some sz)
    (ha : env.rawSigAlloc = true) (hf : env.sigFill = some raw)
    (hc : conversionSucceeds env = true) :
    ∃ m1 t, NCryptSign env m { pbSignatureOut := some buf, cbSignatureOut := some len0 } =
      Outcome.returned m1
        { pbSignatureOut := some (copyBytes
            (ecdsaSigDer (BN_bin2bn (raw.take (raw.length / 2)))
              (BN_bin2bn ((raw.drop (raw.length / 2)).take (raw.length / 2))))
            (ecdsaSigDer (BN_bin2bn (raw.take (raw.length / 2)))
              (BN_bin2bn ((raw.drop (raw.length / 2)).take (raw.length / 2)))).length buf),
          cbSignatureOut := some
            (ecdsaSigDer (BN_bin2bn (raw.take (raw.length / 2)))
              (BN_bin2bn ((raw.drop (raw.length / 2)).take (raw.length / 2)))).length } t := by
  simp only [conversionSucceeds, Bool.and_eq_true] at hc
  obtain ⟨⟨⟨⟨⟨h1, h2⟩, h3⟩, h4⟩, h5⟩, h6⟩ := hc
  have hne : ∀ r s : Nat, ecdsaSigDer r s ≠ [] := fun r s => by simp [ecdsaSigDer]
  simp [NCryptSign, convertEcdsa, copyOut, Machine.alloc, i2dLength, hk, hq, ha, hf,
    h1, h2, h3, h4, h5, h6, hne]

/-- The result of `NCryptSign` for an RSA key when both sign calls succeed: the
raw buffer is copied out unchanged. -/
theorem NCryptSign_rsa_returns (env : OsEnv) (m : Machine) (buf : Nat → Byte) (len0 sz : Nat)
    (raw : List Byte) (hk : m.key.is_rsa_type = true) (hq : env.sigSizeQuery = some sz)
    (ha : env.rawSigAlloc = true) (hf : env.sigFill = some raw) :
    ∃ m1 t, NCryptSign env m { pbSignatureOut := some buf, cbSignatureOut := some len0 } =
      Outcome.returned m1
        { pbSignatureOut := some (copyBytes raw raw.length buf),
          cbSignatureOut := some raw.length } t := by
  simp [NCryptSign, copyOut, Machine.alloc, hk, hq, ha, hf]

theorem derIntegerContent_bin2bn (half : List Byte) :
    derIntegerContent (BN_bin2bn half) = standardIntegerContent half := by
  unfold derIntegerContent standardIntegerContent
  rw [BN_bn2bin_bin2bn]

theorem halves_of_even (raw : List Byte) (n : Nat) (h : raw.length = 2 * n) :
    raw.length / 2 = n ∧ (raw.drop n).take n = raw.drop n ∧ (raw.take n).length = n
      ∧ (raw.drop n).length = n := by
  have h1 : raw.length / 2 = n := by omega
  have h2 : (raw.drop n).length = n := by rw [List.length_drop]; omega
  refine ⟨h1, ?_, ?_, h2⟩
  · exact List.take_of_length_le (by omega)
  · rw [List.length_take]; omega

/-! ## Claims about the EC conversion -/

/-- C1: for a non-RSA key, when the sign primitive returns a raw signature of
exactly `2 * n` bytes (within the `DWORD` range of `cbSignature`) and every
step of the conversion succeeds, the bytes `NCryptSign` copies to the caller
are accepted by the strict DER reader as a SEQUENCE of exactly two INTEGERs,
the integers are the big-endian values of the two halves, and writing them
back as `n`-byte big-endian values, `r` then `s`, gives the raw signature. -/
theorem C1_ec_round_trip (env : OsEnv) (m : Machine) (buf : Nat → Byte) (len0 sz n : Nat)
    (raw : List Byte) (hlen : raw.length = 2 * n) (hdword : raw.length < 2 ^ 32)
    (hk : m.key.is_rsa_type = false) (hq : env.sigSizeQuery = some sz)
    (ha : env.rawSigAlloc = true) (hf : env.sigFill = some raw)
    (hc : conversionSucceeds env = true) :
    ∃ m1 buf1 L t r s,
      NCryptSign env m { pbSignatureOut := some buf, cbSignatureOut := some len0 } =
        Outcome.returned m1 { pbSignatureOut := some buf1, cbSignatureOut := some L } t
      ∧ r = BN_bin2bn (raw.take n) ∧ s = BN_bin2bn (raw.drop n)
      ∧ parseEcdsaSig (bufferPrefix buf1 L) = some ((r : Int), (s : Int))
      ∧ BN_bn2binpad r n ++ BN_bn2binpad s n = raw := by
  obtain ⟨m1, t, hrun⟩ := NCryptSign_ec_returns env m buf len0 sz raw hk hq ha hf hc
  obtain ⟨h1, h2, h3, h4⟩ := halves_of_even raw n hlen
  rw [h1, h2] at hrun
  refine ⟨m1, _, _, t, BN_bin2bn (raw.take n), BN_bin2bn (raw.drop n), hrun, rfl, rfl, ?_, ?_⟩
  · rw [bufferPrefix_copyBytes]
    have cr := derIntegerContent_length_le (raw.take n)
    have cs := derIntegerContent_length_le (raw.drop n)
    rw [h3] at cr
    rw [h4] at cs
    have hn : n < 2 ^ 31 := by omega
    have b1 : (derIntegerContent (BN_bin2bn (raw.take n))).length < 2 ^ 64 := by
      have : (2 : Nat) ^ 31 < 2 ^ 64 := by norm_num
      omega
    have b2 : (derIntegerContent (BN_bin2bn (raw.drop n))).length < 2 ^ 64 := by
      have : (2 : Nat) ^ 31 < 2 ^ 64 := by norm_num
      omega
    have l1 := derLength_length_le _ b1
    have l2 := derLength_length_le _ b2
    have b3 : (derInteger (BN_bin2bn (raw.take n)) ++ derInteger (BN_bin2bn (raw.drop n))).length
        < 2 ^ 64 := by
      rw [List.length_append, derInteger_length, derInteger_length]
      have : (2 : Nat) ^ 31 + 2 ^ 31 + 100 < 2 ^ 64 := by norm_num
      omega
    exact parseEcdsaSig_ecdsaSigDer _ _ (BN_bn2bin_length_of_lt_two_pow _ b1)
      (BN_bn2bin_length_of_lt_two_pow _ b2) (BN_bn2bin_length_of_lt_two_pow _ b3)
  · have e1 := BN_bn2binpad_bin2bn (raw.take n)
    have e2 := BN_bn2binpad_bin2bn (raw.drop n)
    rw [h3] at e1
    rw [h4] at e2
    rw [e1, e2, List.take_append_drop]

/-- C1 at a concrete input: the raw signature `00 80 | 01 02` (`n = 2`). -/
theorem C1_ec_round_trip_witness :
    ([0, 128, 1, 2] : List Byte).length = 2 * 2 ∧
    ∃ m1 buf1 L t r s,
      NCryptSign (allSucceed [0, 128, 1, 2]) (CreateCustomKey false "MY" "test-signer")
          { pbSignatureOut := some blankBuffer, cbSignatureOut := some 0 } =
        Outcome.returned m1 { pbSignatureOut := some buf1, cbSignatureOut := some L } t
      ∧ r = BN_bin2bn (([0, 128, 1, 2] : List Byte).take 2)
      ∧ s = BN_bin2bn (([0, 128, 1, 2] : List Byte).drop 2)
      ∧ parseEcdsaSig (bufferPrefix buf1 L) = some ((r : Int), (s : Int))
      ∧ BN_bn2binpad r 2 ++ BN_bn2binpad s 2 = [0, 128, 1, 2] :=
  ⟨rfl, C1_ec_round_trip (allSucceed [0, 128, 1, 2]) (CreateCustomKey false "MY" "test-signer")
    blankBuffer 0 4 2 [0, 128, 1, 2] rfl (by decide) rfl rfl rfl rfl rfl⟩

/-- C4: for a non-RSA key and a raw signature of `2 * n` bytes, the bytes
`NCryptSign` copies out are a SEQUENCE of two INTEGERs whose contents are the
standard contents of the two halves (leading zero bytes removed, zero as the
single byte `0x00`, one `0x00` in front exactly when the top bit of the first
magnitude byte is set); each content is not empty, has a clear top bit (the
integer is not negative) and has no redundant leading byte. -/
theorem C4_standard_integer_encoding (env : OsEnv) (m : Machine) (buf : Nat → Byte)
    (len0 sz n : Nat) (raw : List Byte) (hlen : raw.length = 2 * n)
    (hk : m.key.is_rsa_type = false) (hq : env.sigSizeQuery = some sz)
    (ha : env.rawSigAlloc = true) (hf : env.sigFill = some raw)
    (hc : conversionSucceeds env = true) :
    ∃ m1 buf1 L t cr cs,
      NCryptSign env m { pbSignatureOut := some buf, cbSignatureOut := some len0 } =
        Outcome.returned m1 { pbSignatureOut := some buf1, cbSignatureOut := some L } t
      ∧ cr = standardIntegerContent (raw.take n) ∧ cs = standardIntegerContent (raw.drop n)
      ∧ bufferPrefix buf1 L =
          byte 48 :: (derLength
              ((byte 2 :: (derLength cr.length ++ cr)) ++ (byte 2 :: (derLength cs.length ++ cs))).length
            ++ ((byte 2 :: (derLength cr.length ++ cr)) ++ (byte 2 :: (derLength cs.length ++ cs))))
      ∧ (∀ c, c = cr ∨ c = cs →
          (∃ b bs, c = b :: bs ∧ b.val < 128) ∧ minimalInteger c = true ∧ 0 ≤ integerValue c) := by
  obtain ⟨m1, t, hrun⟩ := NCryptSign_ec_returns env m buf len0 sz raw hk hq ha hf hc
  obtain ⟨h1, h2, -, -⟩ := halves_of_even raw n hlen
  rw [h1, h2] at hrun
  refine ⟨m1, _, _, t, _, _, hrun, rfl, rfl, ?_, ?_⟩
  · rw [bufferPrefix_copyBytes]
    simp only [ecdsaSigDer, derInteger, derIntegerContent_bin2bn]
  · have key : ∀ half : List Byte,
        (∃ b bs, standardIntegerContent half = b :: bs ∧ b.val < 128)
          ∧ minimalInteger (standardIntegerContent half) = true
          ∧ 0 ≤ integerValue (standardIntegerContent half) := by
      intro half
      rw [← derIntegerContent_bin2bn]
      refine ⟨?_, derIntegerContent_minimal _, ?_⟩
      · unfold derIntegerContent
        cases hb : BN_bn2bin (BN_bin2bn half) with
        | nil => exact ⟨0, [], rfl, by decide⟩
        | cons b bs =>
          by_cases h128 : 128 ≤ b.val
          · exact ⟨0, b :: bs, by simp [h128], by decide⟩
          · exact ⟨b, bs, by simp [h128], by omega⟩
      · rw [derIntegerContent_value]
        exact Int.natCast_nonneg _
    rintro c (rfl | rfl)
    · exact key _
    · exact key _

/-- C4 at a concrete input: the halves `00 80` and `01 02`. -/
theorem C4_standard_integer_encoding_witness :
    ([0, 128, 1, 2] : List Byte).length = 2 * 2 ∧
    ∃ m1 buf1 L t cr cs,
      NCryptSign (allSucceed [0, 128, 1, 2]) (CreateCustomKey false "MY" "test-signer")
          { pbSignatureOut := some blankBuffer, cbSignatureOut := some 0 } =
        Outcome.returned m1 { pbSignatureOut := some buf1, cbSignatureOut := some L } t
      ∧ cr = standardIntegerContent (([0, 128, 1, 2] : List Byte).take 2)
      ∧ cs = standardIntegerContent (([0, 128, 1, 2] : List Byte).drop 2)
      ∧ bufferPrefix buf1 L =
          byte 48 :: (derLength
              ((byte 2 :: (derLength cr.length ++ cr)) ++ (byte 2 :: (derLength cs.length ++ cs))).length
            ++ ((byte 2 :: (derLength cr.length ++ cr)) ++ (byte 2 :: (derLength cs.length ++ cs))))
      ∧ (∀ c, c = cr ∨ c = cs →
          (∃ b bs, c = b :: bs ∧ b.val < 128) ∧ minimalInteger c = true ∧ 0 ≤ integerValue c) :=
  ⟨rfl, C4_standard_integer_encoding (allSucceed [0, 128, 1, 2])
    (CreateCustomKey false "MY" "test-signer") blankBuffer 0 4 2 [0, 128, 1, 2] rfl rfl rfl rfl
    rfl rfl⟩

theorem ecdsaSigDer_length_small (r s : Nat) (hr : (derIntegerContent r).length ≤ 33)
    (hs : (derIntegerContent s).length ≤ 33) :
    (ecdsaSigDer r s).length = 6 + (derIntegerContent r).length + (derIntegerContent s).length := by
  have e1 : (derInteger r).length = 2 + (derIntegerContent r).length := by
    rw [derInteger_length, derLength_short _ (by omega)]
    simp
  have e2 : (derInteger s).length = 2 + (derIntegerContent s).length := by
    rw [derInteger_length, derLength_short _ (by omega)]
    simp
  rw [ecdsaSigDer_length, List.length_append, derLength_short _ (by omega), e1, e2]
  simp
  omega

theorem standardIntegerContent_zero (half : List Byte) (h : ∀ b ∈ half, b = 0) :
    standardIntegerContent half = [0] := by
  have : half.dropWhile (fun b => decide (b = 0)) = [] := by
    rw [List.dropWhile_eq_nil_iff]
    intro x hx
    simp [h x hx]
  simp [standardIntegerContent, this]

theorem standardIntegerContent_top_bit (b : Byte) (bs : List Byte) (h : 128 ≤ b.val) :
    standardIntegerContent (b :: bs) = 0 :: b :: bs := by
  have hb : b ≠ 0 := by
    intro h0
    rw [h0] at h
    simp at h
  simp [standardIntegerContent, List.dropWhile_cons, hb, h]

/-- C8: for a non-RSA key and a 64-byte raw signature, the structured encoding
`NCryptSign` produces has a length `L` with `8 ≤ L ≤ 72`; `L` is the value
stored in `*cbSignatureOut`; `L = 8` when every raw byte is zero and `L = 72`
when both 32-byte halves start with a byte whose top bit is set. -/
theorem C8_p256_length_bound (env : OsEnv) (m : Machine) (buf : Nat → Byte) (len0 sz : Nat)
    (raw : List Byte) (hlen : raw.length = 64)
    (hk : m.key.is_rsa_type = false) (hq : env.sigSizeQuery = some sz)
    (ha : env.rawSigAlloc = true) (hf : env.sigFill = some raw)
    (hc : conversionSucceeds env = true) :
    ∃ m1 buf1 L t,
      NCryptSign env m { pbSignatureOut := some buf, cbSignatureOut := some len0 } =
        Outcome.returned m1 { pbSignatureOut := some buf1, cbSignatureOut := some L } t
      ∧ bufferPrefix buf1 L = ecdsaSigDer (BN_bin2bn (raw.take 32)) (BN_bin2bn (raw.drop 32))
      ∧ (bufferPrefix buf1 L).length = L
      ∧ 8 ≤ L ∧ L ≤ 72
      ∧ ((∀ b ∈ raw, b = 0) → L = 8)
      ∧ (∀ b1 t1 b2 t2, raw.take 32 = b1 :: t1 → raw.drop 32 = b2 :: t2 →
          128 ≤ b1.val → 128 ≤ b2.val → L = 72) := by
  obtain ⟨m1, t, hrun⟩ := NCryptSign_ec_returns env m buf len0 sz raw hk hq ha hf hc
  obtain ⟨h1, h2, h3, h4⟩ := halves_of_even raw 32 (by omega)
  rw [h1, h2] at hrun
  have cr := derIntegerContent_length_le (raw.take 32)
  have cs := derIntegerContent_length_le (raw.drop 32)
  have pr := derIntegerContent_length_pos (BN_bin2bn (raw.take 32))
  have ps := derIntegerContent_length_pos (BN_bin2bn (raw.drop 32))
  rw [h3] at cr
  rw [h4] at cs
  have hL := ecdsaSigDer_length_small _ _ cr cs
  refine ⟨m1, _, _, t, hrun, bufferPrefix_copyBytes _ _, bufferPrefix_length _ _,
    by omega, by omega, ?_, ?_⟩
  · intro hz
    rw [hL, derIntegerContent_bin2bn, derIntegerContent_bin2bn,
      standardIntegerContent_zero _ (fun b hb => hz b (List.mem_of_mem_take hb)),
      standardIntegerContent_zero _ (fun b hb => hz b (List.mem_of_mem_drop hb))]
    rfl
  · intro b1 t1 b2 t2 e1 e2 hb1 hb2
    rw [hL, derIntegerContent_bin2bn, derIntegerContent_bin2bn, e1, e2,
      standardIntegerContent_top_bit _ _ hb1, standardIntegerContent_top_bit _ _ hb2]
    rw [e1] at h3
    rw [e2] at h4
    simp only [List.length_cons] at h3 h4 ⊢
    omega

/-- C8 at a concrete input: the 64-byte raw signature `rawP256`. -/
theorem C8_p256_length_bound_witness :
    rawP256.length = 64 ∧
    ∃ m1 buf1 L t,
      NCryptSign (allSucceed rawP256) (CreateCustomKey false "MY" "test-signer")
          { pbSignatureOut := some blankBuffer, cbSignatureOut := some 0 } =
        Outcome.returned m1 { pbSignatureOut := some buf1, cbSignatureOut := some L } t
      ∧ bufferPrefix buf1 L =
          ecdsaSigDer (BN_bin2bn (rawP256.take 32)) (BN_bin2bn (rawP256.drop 32))
      ∧ (bufferPrefix buf1 L).length = L
      ∧ 8 ≤ L ∧ L ≤ 72
      ∧ ((∀ b ∈ rawP256, b = 0) → L = 8)
      ∧ (∀ b1 t1 b2 t2, rawP256.take 32 = b1 :: t1 → rawP256.drop 32 = b2 :: t2 →
          128 ≤ b1.val → 128 ≤ b2.val → L = 72) :=
  ⟨by decide, C8_p256_length_bound (allSucceed rawP256)
    (CreateCustomKey false "MY" "test-signer") blankBuffer 0 64 rawP256 (by decide) rfl rfl rfl
    rfl rfl⟩

/-! ## Claims about the copy to the caller and the padding -/

theorem GetSignerCert_is_rsa (env : OsEnv) (m : Machine) :
    (GetSignerCert env m).1.key.is_rsa_type = m.key.is_rsa_type := by
  unfold GetSignerCert
  cases h1 : env.certStoreOpens <;> cases h2 : env.certFound <;> simp [Machine.alloc]

theorem GetPrivateKey_is_rsa (env : OsEnv) (m : Machine) :
    (GetPrivateKey env m).1.key.is_rsa_type = m.key.is_rsa_type := by
  unfold GetPrivateKey
  cases h1 : env.keyAcquired <;> simp

theorem CreateHash_is_rsa (env : OsEnv) (tbs : List Byte) (m : Machine) :
    (CreateHash env tbs m).1.key.is_rsa_type = m.key.is_rsa_type := by
  unfold CreateHash
  cases env.algOpens <;> cases env.objectLength <;> cases env.hashObjectAlloc
    <;> cases env.hashLength <;> cases env.hashAlloc <;> cases env.hashCreated
    <;> cases env.hashDataOk <;> simp [Machine.alloc]

theorem Sign_unfold (env : OsEnv) (m : Machine) (sig : Option (Nat → Byte)) (tbs : List Byte)
    (len : Nat) :
    Sign env m sig tbs len =
      match NCryptSign env (CreateHash env tbs (GetPrivateKey env (GetSignerCert env m).1).1).1
          { pbSignatureOut := sig, cbSignatureOut := some len } with
      | Outcome.crashed m4 t4 =>
        Outcome.crashed m4 ((GetSignerCert env m).2 ++ (GetPrivateKey env (GetSignerCert env m).1).2
          ++ (CreateHash env tbs (GetPrivateKey env (GetSignerCert env m).1).1).2 ++ t4)
      | Outcome.returned m4 out t4 =>
        Outcome.returned m4
          { sig := out.pbSignatureOut, sig_len := out.cbSignatureOut.getD len, ret := true }
          ((GetSignerCert env m).2 ++ (GetPrivateKey env (GetSignerCert env m).1).2
            ++ (CreateHash env tbs (GetPrivateKey env (GetSignerCert env m).1).1).2 ++ t4) := by
  rfl

theorem phases_is_rsa (env : OsEnv) (tbs : List Byte) (m : Machine) :
    (CreateHash env tbs (GetPrivateKey env (GetSignerCert env m).1).1).1.key.is_rsa_type
      = m.key.is_rsa_type := by
  rw [CreateHash_is_rsa, GetPrivateKey_is_rsa, GetSignerCert_is_rsa]

theorem NCryptSign_success (env : OsEnv) (m : Machine) (buf : Nat → Byte) (len0 sz : Nat)
    (raw : List Byte) (hq : env.sigSizeQuery = some sz) (ha : env.rawSigAlloc = true)
    (hf : env.sigFill = some raw)
    (hc : m.key.is_rsa_type = false → conversionSucceeds env = true) :
    ∃ m1 t, NCryptSign env m { pbSignatureOut := some buf, cbSignatureOut := some len0 } =
      Outcome.returned m1
        { pbSignatureOut := some (copyBytes (finalSignature m.key.is_rsa_type raw)
            (finalSignature m.key.is_rsa_type raw).length buf),
          cbSignatureOut := some (finalSignature m.key.is_rsa_type raw).length } t := by
  cases hk : m.key.is_rsa_type with
  | true => exact NCryptSign_rsa_returns env m buf len0 sz raw hk hq ha hf
  | false => exact NCryptSign_ec_returns env m buf len0 sz raw hk hq ha hf (hc hk)

/-- C5: when both calls of the sign primitive succeed (the second one takes
place, so the raw buffer was allocated) and, for a non-RSA key, the conversion
succeeds, `NCryptSign` with non-null output pointers returns with the first
`L` bytes of the caller's buffer equal to the final signature and
`*cbSignatureOut = L`, where `L` is the length of the final signature: the raw
buffer itself for an RSA key, the structured encoding otherwise. `Sign` with a
non-null `sig` then returns with the same buffer and `*sig_len = L`. -/
theorem C5_output_copy_and_length (env : OsEnv) (m : Machine) (buf : Nat → Byte)
    (len0 sz : Nat) (raw tbs : List Byte)
    (hq : env.sigSizeQuery = some sz) (ha : env.rawSigAlloc = true)
    (hf : env.sigFill = some raw)
    (hc : m.key.is_rsa_type = false → conversionSucceeds env = true) :
    (∃ m1 buf1 t,
      NCryptSign env m { pbSignatureOut := some buf, cbSignatureOut := some len0 } =
        Outcome.returned m1
          { pbSignatureOut := some buf1,
            cbSignatureOut := some (finalSignature m.key.is_rsa_type raw).length } t
      ∧ bufferPrefix buf1 (finalSignature m.key.is_rsa_type raw).length
          = finalSignature m.key.is_rsa_type raw)
    ∧ (∃ m1 buf1 t,
      Sign env m (some buf) tbs len0 =
        Outcome.returned m1
          { sig := some buf1, sig_len := (finalSignature m.key.is_rsa_type raw).length,
            ret := true } t
      ∧ bufferPrefix buf1 (finalSignature m.key.is_rsa_type raw).length
          = finalSignature m.key.is_rsa_type raw)
    ∧ (m.key.is_rsa_type = true → finalSignature m.key.is_rsa_type raw = raw) := by
  refine ⟨?_, ?_, ?_⟩
  · obtain ⟨m1, t, h⟩ := NCryptSign_success env m buf len0 sz raw hq ha hf hc
    exact ⟨m1, _, t, h, bufferPrefix_copyBytes _ _⟩
  · have hrsa := phases_is_rsa env tbs m
    obtain ⟨m1, t, h⟩ := NCryptSign_success env
      (CreateHash env tbs (GetPrivateKey env (GetSignerCert env m).1).1).1 buf len0 sz raw hq ha hf
      (by rw [hrsa]; exact hc)
    rw [hrsa] at h
    rw [Sign_unfold, h]
    exact ⟨m1, _, _, rfl, bufferPrefix_copyBytes _ _⟩
  · intro hk
    simp [finalSignature, hk]

/-- C5 at a concrete input: an RSA key and the raw signature `01 02 03`. -/
theorem C5_output_copy_and_length_witness :
    (∃ m1 buf1 t,
      NCryptSign (allSucceed [1, 2, 3]) (CreateCustomKey true "MY" "test-signer")
          { pbSignatureOut := some blankBuffer, cbSignatureOut := some 0 } =
        Outcome.returned m1 { pbSignatureOut := some buf1, cbSignatureOut := some 3 } t
      ∧ bufferPrefix buf1 3 = [1, 2, 3])
    ∧ (∃ m1 buf1 t,
      Sign (allSucceed [1, 2, 3]) (CreateCustomKey true "MY" "test-signer") (some blankBuffer)
          [9, 9] 0 =
        Outcome.returned m1 { sig := some buf1, sig_len := 3, ret := true } t
      ∧ bufferPrefix buf1 3 = [1, 2, 3])
    ∧ ((CreateCustomKey true "MY" "test-signer").key.is_rsa_type = true →
        finalSignature (CreateCustomKey true "MY" "test-signer").key.is_rsa_type [1, 2, 3]
          = [1, 2, 3]) :=
  C5_output_copy_and_length (allSucceed [1, 2, 3]) (CreateCustomKey true "MY" "test-signer")
    blankBuffer 0 3 [1, 2, 3] [9, 9] rfl rfl rfl (fun h => absurd h (by decide))

theorem signHashArgs_append (a b : List Event) :
    signHashArgs (a ++ b) = signHashArgs a ++ signHashArgs b := by
  simp [signHashArgs, List.filterMap_append]

theorem convertEcdsa_signHashArgs (env : OsEnv) (m : Machine) (raw : List Byte) :
    signHashArgs (convertEcdsa env m raw).trace = [] := by
  have hne : ∀ r s : Nat, ecdsaSigDer r s ≠ [] := fun r s => by simp [ecdsaSigDer]
  unfold convertEcdsa
  cases env.sigStructAlloc <;> cases env.bnROk <;> cases env.bnSOk <;> cases env.hexOk
    <;> cases env.i2dSizeOk <;> cases env.encodedAlloc <;> cases env.i2dFillOk
    <;> simp [Machine.alloc, i2dLength, EcResult.trace, signHashArgs, Event.signArgs, hne]

theorem copyOut_trace (m : Machine) (p : Option (List Byte)) (cb : Nat) (out : OutArgs)
    (t : List Event) : (copyOut m p cb out t).trace = t := by
  unfold copyOut
  split
  · split
    · rfl
    · split <;> rfl
  · rfl

/-- The trace of `NCryptSign`, with the conversion block kept as a unit. -/
theorem NCryptSign_signHashArgs (env : OsEnv) (m : Machine) (out : OutArgs) :
    signHashArgs (NCryptSign env m out).trace =
      if env.sigSizeQuery.isSome ∧ env.rawSigAlloc = true then
        [paddingSelection m.key.is_rsa_type, paddingSelection m.key.is_rsa_type]
      else [paddingSelection m.key.is_rsa_type] := by
  unfold NCryptSign
  cases hq : env.sigSizeQuery with
  | none => simp [Outcome.trace, signHashArgs, Event.signArgs]
  | some cb =>
    cases ha : env.rawSigAlloc with
    | false => simp [Machine.alloc, Outcome.trace, signHashArgs, Event.signArgs]
    | true =>
      cases hf : env.sigFill with
      | none => simp [Machine.alloc, Outcome.trace, signHashArgs, Event.signArgs]
      | some raw =>
        cases hk : m.key.is_rsa_type with
        | true =>
          simp [Machine.alloc, copyOut_trace, signHashArgs, Event.signArgs]
        | false =>
          have hc := convertEcdsa_signHashArgs env
            { key := m.key, nextHandle := m.nextHandle + 1 } raw
          simp only [Machine.alloc, if_true]
          cases hres : convertEcdsa env { key := m.key, nextHandle := m.nextHandle + 1 } raw with
          | converted m2 p l t =>
            rw [hres] at hc
            simp only [EcResult.trace] at hc
            simp only [copyOut_trace]
            rw [signHashArgs_append, hc, List.append_nil]
            simp [signHashArgs, Event.signArgs]
          | aborted m2 t =>
            rw [hres] at hc
            simp only [EcResult.trace] at hc
            simp only [Outcome.trace]
            rw [signHashArgs_append, hc, List.append_nil]
            simp [signHashArgs, Event.signArgs]
          | nullDeref m2 t =>
            rw [hres] at hc
            simp only [EcResult.trace] at hc
            simp only [Outcome.trace]
            rw [signHashArgs_append, hc, List.append_nil]
            simp [signHashArgs, Event.signArgs]

/-- C6: in every call of `NCryptSign` the size query is made, the fill is made
exactly when the size query and the buffer allocation succeed, and every such
call of the sign primitive receives the same padding argument and flag: the
PSS padding record with hash algorithm SHA-256 and salt length 32 together
with `BCRYPT_PAD_PSS` if and only if the key is RSA, and a null padding
argument with flag 0 if and only if it is not. -/
theorem C6_padding_selection (env : OsEnv) (m : Machine) (out : OutArgs) :
    (signHashArgs (NCryptSign env m out).trace =
      if env.sigSizeQuery.isSome ∧ env.rawSigAlloc = true then
        [paddingSelection m.key.is_rsa_type, paddingSelection m.key.is_rsa_type]
      else [paddingSelection m.key.is_rsa_type])
    ∧ (paddingSelection m.key.is_rsa_type =
          (some { pszAlgId := BCRYPT_SHA256_ALGORITHM, cbSalt := 32 }, BCRYPT_PAD_PSS)
        ↔ m.key.is_rsa_type = true)
    ∧ (paddingSelection m.key.is_rsa_type = (none, 0) ↔ m.key.is_rsa_type = false) := by
  refine ⟨NCryptSign_signHashArgs env m out, ?_, ?_⟩
  · cases m.key.is_rsa_type <;> simp [paddingSelection]
  · cases m.key.is_rsa_type <;> simp [paddingSelection]

/-! ## Failure exits of `NCryptSign` -/

theorem ecdsaSigDer_ne_nil (r s : Nat) : ecdsaSigDer r s ≠ [] := by simp [ecdsaSigDer]

theorem convertEcdsa_no_holder (env : OsEnv) (m : Machine) (raw : List Byte)
    (h : env.sigStructAlloc = false) : ∃ m1 t, convertEcdsa env m raw = EcResult.nullDeref m1 t := by
  simp [convertEcdsa, Machine.alloc, h]

theorem convertEcdsa_aborts (env : OsEnv) (m : Machine) (raw : List Byte)
    (h : env.sigStructAlloc = true)
    (hd : (!env.bnROk || !env.bnSOk || !env.i2dSizeOk || !env.i2dFillOk) = true) :
    ∃ m1 t, convertEcdsa env m raw = EcResult.aborted m1 t := by
  unfold convertEcdsa
  revert hd
  cases env.bnROk <;> cases env.bnSOk <;> cases env.hexOk
    <;> cases env.i2dSizeOk <;> cases env.encodedAlloc <;> cases env.i2dFillOk
    <;> simp [Machine.alloc, i2dLength, h, ecdsaSigDer_ne_nil]

theorem convertEcdsa_converts (env : OsEnv) (m : Machine) (raw : List Byte)
    (h : env.sigStructAlloc = true) (h1 : env.bnROk = true) (h2 : env.bnSOk = true)
    (h3 : env.i2dSizeOk = true) (h4 : env.i2dFillOk = true) :
    ∃ m1 t, convertEcdsa env m raw =
      EcResult.converted m1
        (if env.encodedAlloc = true then some (finalSignature false raw) else none)
        (finalSignature false raw).length t := by
  unfold convertEcdsa
  cases env.hexOk <;> cases env.encodedAlloc
    <;> simp [Machine.alloc, i2dLength, h, h1, h2, h3, h4, ecdsaSigDer_ne_nil, finalSignature]

theorem NCryptSign_detected_failure (env : OsEnv) (m : Machine) (out : OutArgs)
    (hd : detectedFailure m.key.is_rsa_type env = true) :
    ∃ m1 t, NCryptSign env m out = Outcome.returned m1 out t := by
  unfold NCryptSign
  cases hq : env.sigSizeQuery with
  | none => exact ⟨_, _, rfl⟩
  | some cb =>
    cases ha : env.rawSigAlloc with
    | false => simp [Machine.alloc]
    | true =>
      cases hf : env.sigFill with
      | none => simp [Machine.alloc]
      | some raw =>
        cases hk : m.key.is_rsa_type with
        | true => simp [detectedFailure, hq, ha, hf, hk] at hd
        | false =>
          simp only [detectedFailure, hq, ha, hf, hk, Option.isNone_some, Bool.not_true,
            Bool.or_self, Bool.not_false, Bool.true_and, Bool.false_or, Bool.and_eq_true] at hd
          obtain ⟨ma, ta, ea⟩ := convertEcdsa_aborts env
            { key := m.key, nextHandle := m.nextHandle + 1 } raw hd.1 hd.2
          simp [Machine.alloc, ea]

theorem NCryptSign_written (env : OsEnv) (m : Machine) (out : OutArgs) (m1 : Machine)
    (out1 : OutArgs) (t : List Event)
    (hrun : NCryptSign env m out = Outcome.returned m1 out1 t)
    (hfail : everyStepSucceeds m.key.is_rsa_type env = false) : out1 = out := by
  unfold NCryptSign at hrun
  cases hq : env.sigSizeQuery with
  | none =>
    rw [hq] at hrun
    simp only [Outcome.returned.injEq] at hrun
    exact hrun.2.1.symm
  | some cb =>
    cases ha : env.rawSigAlloc with
    | false =>
      simp only [hq, ha, Machine.alloc, Bool.false_eq_true, if_false,
        Outcome.returned.injEq] at hrun
      exact hrun.2.1.symm
    | true =>
      cases hf : env.sigFill with
      | none =>
        simp only [hq, ha, hf, Machine.alloc, if_true, Outcome.returned.injEq] at hrun
        exact hrun.2.1.symm
      | some raw =>
        cases hk : m.key.is_rsa_type with
        | true => simp [everyStepSucceeds, hq, ha, hf, hk] at hfail
        | false =>
          simp only [hq, ha, hf, hk, Machine.alloc, if_true] at hrun
          cases hs : env.sigStructAlloc with
          | false =>
            obtain ⟨ma, ta, ea⟩ := convertEcdsa_no_holder env
              { key := m.key, nextHandle := m.nextHandle + 1 } raw hs
            rw [ea] at hrun
            simp at hrun
          | true =>
            cases hd : (!env.bnROk || !env.bnSOk || !env.i2dSizeOk || !env.i2dFillOk) with
            | true =>
              obtain ⟨ma, ta, ea⟩ := convertEcdsa_aborts env
                { key := m.key, nextHandle := m.nextHandle + 1 } raw hs hd
              rw [ea] at hrun
              simp only [Outcome.returned.injEq] at hrun
              exact hrun.2.1.symm
            | false =>
              simp only [Bool.or_eq_false_iff, Bool.not_eq_false'] at hd
              obtain ⟨⟨⟨h1, h2⟩, h3⟩, h4⟩ := hd
              have he : env.encodedAlloc = false := by
                cases he : env.encodedAlloc with
                | false => rfl
                | true =>
                  simp [everyStepSucceeds, conversionSucceeds, hq, ha, hf, hk, hs, h1, h2, h3,
                    h4, he] at hfail
              obtain ⟨ma, ta, ea⟩ := convertEcdsa_converts env
                { key := m.key, nextHandle := m.nextHandle + 1 } raw hs h1 h2 h3 h4
              rw [ea, he] at hrun
              simp only [Bool.false_eq_true, if_false] at hrun
              have hlen : (finalSignature false raw).length ≠ 0 := by
                simp [finalSignature, ecdsaSigDer_ne_nil]
              unfold copyOut at hrun
              split at hrun
              · simp [hlen] at hrun
              · simp only [Outcome.returned.injEq] at hrun
                exact hrun.2.1.symm

/-- C10: when `NCryptSign` takes one of the failure exits it tests for, it
returns with the caller's signature buffer and length variable exactly as they
were; and whenever `NCryptSign` returns after some step did not succeed, the
caller's buffer and length variable are as they were, so they are written
only when every step succeeded. -/
theorem C10_no_partial_output (env : OsEnv) (m : Machine) (out : OutArgs) :
    (detectedFailure m.key.is_rsa_type env = true →
      ∃ m1 t, NCryptSign env m out = Outcome.returned m1 out t)
    ∧ (∀ m1 out1 t, NCryptSign env m out = Outcome.returned m1 out1 t →
        everyStepSucceeds m.key.is_rsa_type env = false → out1 = out) :=
  ⟨NCryptSign_detected_failure env m out, fun m1 out1 t h1 h2 =>
    NCryptSign_written env m out m1 out1 t h1 h2⟩

/-- C10 at a concrete input: a non-RSA key whose fill call fails. -/
theorem C10_no_partial_output_witness :
    detectedFailure false { allSucceed [1, 2] with sigFill := none } = true ∧
    ∃ m1 t, NCryptSign { allSucceed [1, 2] with sigFill := none }
        (CreateCustomKey false "MY" "test-signer")
        { pbSignatureOut := some blankBuffer, cbSignatureOut := some 7 } =
      Outcome.returned m1 { pbSignatureOut := some blankBuffer, cbSignatureOut := some 7 } t :=
  ⟨by decide, (C10_no_partial_output { allSucceed [1, 2] with sigFill := none }
    (CreateCustomKey false "MY" "test-signer")
    { pbSignatureOut := some blankBuffer, cbSignatureOut := some 7 }).1 (by decide)⟩

/-! ## `Sign`: status and phases -/

theorem NCryptSign_returns (env : OsEnv) (m : Machine) (out : OutArgs)
    (h : signCrashes m.key.is_rsa_type env
      (out.pbSignatureOut.isSome && out.cbSignatureOut.isSome) = false) :
    ∃ m1 out1 t, NCryptSign env m out = Outcome.returned m1 out1 t := by
  cases hd : detectedFailure m.key.is_rsa_type env with
  | true =>
    obtain ⟨m1, t, e⟩ := NCryptSign_detected_failure env m out hd
    exact ⟨m1, out, t, e⟩
  | false =>
    unfold NCryptSign
    cases hq : env.sigSizeQuery with
    | none => simp [detectedFailure, hq] at hd
    | some cb =>
      cases ha : env.rawSigAlloc with
      | false => simp [detectedFailure, ha] at hd
      | true =>
        cases hf : env.sigFill with
        | none => simp [detectedFailure, hf] at hd
        | some raw =>
          cases hk : m.key.is_rsa_type with
          | true =>
            simp only [Machine.alloc, if_true, Bool.true_eq_false, if_false]
            unfold copyOut
            split
            · exact ⟨_, _, _, rfl⟩
            · exact ⟨_, _, _, rfl⟩
          | false =>
            simp only [Machine.alloc, if_true]
            cases hs : env.sigStructAlloc with
            | false => simp [signCrashes, nullPointerAccess, hq, ha, hf, hk, hs] at h
            | true =>
              simp only [detectedFailure, hq, ha, hf, hk, hs, Option.isNone_some, Bool.not_true,
                Bool.or_self, Bool.not_false, Bool.true_and, Bool.false_or,
                Bool.or_eq_false_iff, Bool.not_eq_false'] at hd
              obtain ⟨⟨⟨h1, h2⟩, h3⟩, h4⟩ := hd
              obtain ⟨ma, ta, ea⟩ := convertEcdsa_converts env
                { key := m.key, nextHandle := m.nextHandle + 1 } raw hs h1 h2 h3 h4
              rw [ea]
              unfold copyOut
              cases hb : out.pbSignatureOut with
              | none => exact ⟨_, _, _, rfl⟩
              | some buf =>
                cases hl : out.cbSignatureOut with
                | none => exact ⟨_, _, _, rfl⟩
                | some l =>
                  have he : env.encodedAlloc = true := by
                    simpa [signCrashes, nullPointerAccess, hq, ha, hf, hk, hs, h1, h2, h3, h4,
                      hb, hl] using h
                  simp only [he, if_true]
                  exact ⟨_, _, _, rfl⟩

theorem NCryptSign_crashes (env : OsEnv) (m : Machine) (out : OutArgs)
    (h : signCrashes m.key.is_rsa_type env
      (out.pbSignatureOut.isSome && out.cbSignatureOut.isSome) = true) :
    ∃ m1 t, NCryptSign env m out = Outcome.crashed m1 t := by
  unfold NCryptSign
  cases hq : env.sigSizeQuery with
  | none => simp [signCrashes, hq] at h
  | some cb =>
    cases ha : env.rawSigAlloc with
    | false => simp [signCrashes, ha] at h
    | true =>
      cases hf : env.sigFill with
      | none => simp [signCrashes, hf] at h
      | some raw =>
        cases hk : m.key.is_rsa_type with
        | true => simp [signCrashes, hk] at h
        | false =>
          simp only [Machine.alloc, if_true]
          cases hs : env.sigStructAlloc with
          | false =>
            obtain ⟨ma, ta, ea⟩ := convertEcdsa_no_holder env
              { key := m.key, nextHandle := m.nextHandle + 1 } raw hs
            rw [ea]
            exact ⟨_, _, rfl⟩
          | true =>
            simp only [signCrashes, nullPointerAccess, hq, ha, hf, hk, hs, Bool.not_false,
              Bool.not_true, Option.isSome_some, Bool.true_and, Bool.false_or,
              Bool.and_eq_true, Bool.not_eq_true'] at h
            obtain ⟨⟨⟨⟨⟨h1, h2⟩, h3⟩, h4⟩, he⟩, hb, hl⟩ := h
            obtain ⟨ma, ta, ea⟩ := convertEcdsa_converts env
              { key := m.key, nextHandle := m.nextHandle + 1 } raw hs h1 h2 h3 h4
            rw [ea, he]
            have hlen : (finalSignature false raw).length ≠ 0 := by
              simp [finalSignature, ecdsaSigDer_ne_nil]
            obtain ⟨buf, hbuf⟩ := Option.isSome_iff_exists.mp hb
            obtain ⟨l, hl2⟩ := Option.isSome_iff_exists.mp hl
            unfold copyOut
            simp only [hbuf, hl2, Bool.false_eq_true, if_false, hlen]
            exact ⟨_, _, rfl⟩

/-- C2 (as amended): `Sign` has no failure status. No `Sign` call returns
`false`: every call that returns, returns `true`, whichever phases failed. On
an object that holds no handle yet, a `Sign` call that releases no handle twice
and accesses no null pointer (neither the store through a null `sig` holder at
line 227 nor the read of a null `pbSignatureNew` in the copy loop at line 271)
does return, with `true`. A call that accesses a null pointer does not
return. -/
theorem C2_sign_always_reports_success (env : OsEnv) (m : Machine)
    (sig : Option (Nat → Byte)) (tbs : List Byte) (len : Nat) :
    (Sign env m sig tbs len).value.map SignResult.ret ≠ some false
    ∧ (holdsNoHandle m.key = true →
        (releasedHandles (Sign env m sig tbs len).trace).Nodup →
        signCrashes m.key.is_rsa_type env sig.isSome = false →
        ∃ m1 res t, Sign env m sig tbs len = Outcome.returned m1 res t ∧ res.ret = true)
    ∧ (signCrashes m.key.is_rsa_type env sig.isSome = true →
        (Sign env m sig tbs len).value.isNone = true) := by
  refine ⟨?_, ?_, ?_⟩
  · rw [Sign_unfold]
    cases NCryptSign env (CreateHash env tbs (GetPrivateKey env (GetSignerCert env m).1).1).1
      { pbSignatureOut := sig, cbSignatureOut := some len } <;> simp [Outcome.value]
  · intro _ _ h
    obtain ⟨m1, out1, t, e⟩ := NCryptSign_returns env
      (CreateHash env tbs (GetPrivateKey env (GetSignerCert env m).1).1).1
      { pbSignatureOut := sig, cbSignatureOut := some len }
      (by rw [phases_is_rsa]; simpa using h)
    rw [Sign_unfold, e]
    exact ⟨_, _, _, rfl, rfl⟩
  · intro h
    obtain ⟨m1, t, e⟩ := NCryptSign_crashes env
      (CreateHash env tbs (GetPrivateKey env (GetSignerCert env m).1).1).1
      { pbSignatureOut := sig, cbSignatureOut := some len }
      (by rw [phases_is_rsa]; simpa using h)
    rw [Sign_unfold, e]
    rfl

/-- C2 at a concrete input: a new object, the store cannot be opened, nothing
is released, no null pointer is accessed, and `Sign` returns `true`. -/
theorem C2_sign_always_reports_success_witness :
    (holdsNoHandle (CreateCustomKey true "MY" "test-signer").key = true
      ∧ (releasedHandles (Sign storeUnavailable (CreateCustomKey true "MY" "test-signer")
          (some blankBuffer) [1, 2, 3] 12345).trace).Nodup
      ∧ signCrashes (CreateCustomKey true "MY" "test-signer").key.is_rsa_type storeUnavailable
          (some blankBuffer).isSome = false)
    ∧ ∃ m1 res t, Sign storeUnavailable (CreateCustomKey true "MY" "test-signer")
        (some blankBuffer) [1, 2, 3] 12345 = Outcome.returned m1 res t ∧ res.ret = true :=
  ⟨⟨by decide, by decide, by decide⟩, (C2_sign_always_reports_success storeUnavailable
    (CreateCustomKey true "MY" "test-signer") (some blankBuffer) [1, 2, 3] 12345).2.1
      (by decide) (by decide) (by decide)⟩

/-- C2 as stated fails: the store cannot be opened, and `Sign` still returns
`true`, with `*sig_len` set to the indeterminate value of its local `len`. -/
theorem C2_counterexample :
    storeUnavailable.certStoreOpens = false
    ∧ (Sign storeUnavailable (CreateCustomKey true "MY" "test-signer") (some blankBuffer)
        [1, 2, 3] 12345).value.map (fun res => (res.ret, res.sig_len)) = some (true, 12345) := by
  decide

/-- C3, the code evaluated. One `Sign` call in which the store opens and no
certificate matches, then `DestroyCustomKey`: the store handle (handle 0) is
acquired once and released three times (by `HandleError` in `GetSignerCert`, by
`HandleError` in `GetPrivateKey`, by the destructor). One fully successful
`Sign` call for an RSA key, then `DestroyCustomKey`: the private-key handle
(handle 2) and the raw signature buffer (handle 7) are acquired once and never
released. -/
theorem C3_release_is_not_exactly_once :
    (acquireCount 0 (sessionTrace certificateMissing (CreateCustomKey true "MY" "test-signer")
        (some blankBuffer) [1, 2, 3] 0) = 1
      ∧ releaseCount 0 (sessionTrace certificateMissing (CreateCustomKey true "MY" "test-signer")
        (some blankBuffer) [1, 2, 3] 0) = 3)
    ∧ (acquireCount 2 (sessionTrace (allSucceed [1, 2, 3]) (CreateCustomKey true "MY" "test-signer")
        (some blankBuffer) [1, 2, 3] 0) = 1
      ∧ releaseCount 2 (sessionTrace (allSucceed [1, 2, 3]) (CreateCustomKey true "MY" "test-signer")
        (some blankBuffer) [1, 2, 3] 0) = 0
      ∧ acquireCount 7 (sessionTrace (allSucceed [1, 2, 3]) (CreateCustomKey true "MY" "test-signer")
        (some blankBuffer) [1, 2, 3] 0) = 1
      ∧ releaseCount 7 (sessionTrace (allSucceed [1, 2, 3]) (CreateCustomKey true "MY" "test-signer")
        (some blankBuffer) [1, 2, 3] 0) = 0) := by
  decide

/-- C9, the code evaluated. For a non-RSA key whose sign calls succeed:
when the allocation of the `sig` holder fails, `NCryptSign` does not return: the
store `sig->r = ...` goes through the null pointer, right after the failed
allocation and the first `BN_bin2bn` call; when the allocation of the buffer
for the encoding fails, `NCryptSign` does not return either: the copy loop
reads through the null `pbSignatureNew`. Only the failed allocation of the raw
signature buffer is tested before use: `NCryptSign` then returns having made
the size query and the allocation only. -/
theorem C9_null_allocation_is_dereferenced :
    ((NCryptSign { allSucceed [1, 2, 3, 4] with sigStructAlloc := false }
        (CreateCustomKey false "MY" "test-signer")
        { pbSignatureOut := some blankBuffer, cbSignatureOut := some 0 }).value.isNone = true
      ∧ (NCryptSign { allSucceed [1, 2, 3, 4] with sigStructAlloc := false }
        (CreateCustomKey false "MY" "test-signer")
        { pbSignatureOut := some blankBuffer, cbSignatureOut := some 0 }).trace =
          [Event.NCryptSignHash none none 0 none true,
           Event.HeapAlloc 4 (some 0),
           Event.NCryptSignHash none none 0 (some 0) true,
           Event.HeapAlloc 16 none,
           Event.BN_bin2bn (some 1)])
    ∧ (NCryptSign { allSucceed [1, 2, 3, 4] with encodedAlloc := false }
        (CreateCustomKey false "MY" "test-signer")
        { pbSignatureOut := some blankBuffer, cbSignatureOut := some 0 }).value.isNone = true
    ∧ ((NCryptSign { allSucceed [1, 2, 3, 4] with rawSigAlloc := false }
        (CreateCustomKey false "MY" "test-signer")
        { pbSignatureOut := some blankBuffer, cbSignatureOut := some 0 }).value.isSome = true
      ∧ (NCryptSign { allSucceed [1, 2, 3, 4] with rawSigAlloc := false }
        (CreateCustomKey false "MY" "test-signer")
        { pbSignatureOut := some blankBuffer, cbSignatureOut := some 0 }).trace =
          [Event.NCryptSignHash none none 0 none true, Event.HeapAlloc 4 none]) := by
  decide

/-! ## Evaluations on small inputs -/

example : (ecdsaSigDer (BN_bin2bn (rawP256.take 32)) (BN_bin2bn (rawP256.drop 32))).length = 40 := by
  decide
example : (ecdsaSigDer (BN_bin2bn (List.replicate 32 255)) (BN_bin2bn (List.replicate 32 255))).length = 72 := by
  decide

example : signHashArgs (NCryptSign (allSucceed [1, 2, 3]) (CreateCustomKey true "MY" "s")
    { pbSignatureOut := none, cbSignatureOut := none }).trace
    = [(some { pszAlgId := "SHA256", cbSalt := 32 }, 8),
       (some { pszAlgId := "SHA256", cbSalt := 32 }, 8)] := by decide
example : signHashArgs (NCryptSign (allSucceed [1, 2, 3, 4]) (CreateCustomKey false "MY" "s")
    { pbSignatureOut := none, cbSignatureOut := none }).trace
    = [(none, 0), (none, 0)] := by decide

example : ecdsaSigDer 0 0 = [48, 6, 2, 1, 0, 2, 1, 0] := by decide
example : ecdsaSigDer 128 1 = [48, 7, 2, 2, 0, 128, 2, 1, 1] := by decide
example : parseEcdsaSig (ecdsaSigDer 128 1) = some (128, 1) := by decide
example : BN_bn2bin (BN_bin2bn [0, 0, 1, 2]) = [1, 2] := by decide
example : derLength 300 = [130, 1, 44] := by decide
example : parseLength (derLength 300) = some (300, []) := by decide

end WindowsSigner
